import Mathlib

/-!
# Verification of the Onymos trade-matching core (src/onymos.py)

Shallow embedding of the Python module `onymos.py`.  Python lists of fixed
size become Lean `List`s (with `None` slots as `Option Order`), Python ints
become `ℤ` (tickers, quantities, order types), Python floats become `ℚ`
(prices: the program only compares prices, never does float arithmetic, and
the initial `float('inf')` accumulator is modelled by an `Option` accumulator
that any first candidate beats, since every stored rational price is below
infinity).  The Python functions return `None` on every path; following the
source comments (`# Invalid ticker`, the capacity guard, the match emission)
each control path is labelled with an explicit outcome value, and the
`print` of a match is modelled as the returned match record.
-/

/-- `MAX_TICKERS = 1024` (onymos.py line 5). -/
def MAX_TICKERS : ℕ := 1024

/-- `MAX_ORDERS_PER_SIDE = 1024` (onymos.py line 6). -/
def MAX_ORDERS_PER_SIDE : ℕ := 1024

/-- The `Order` class (onymos.py lines 9–15): `active` starts `True`;
`order_type` is `0` for Buy, `1` for Sell (any Python int is accepted);
`quantity` an int; `price` a float, modelled as `ℚ`. -/
structure Order where
  active : Bool
  order_type : ℤ
  ticker : ℤ
  quantity : ℤ
  price : ℚ
deriving DecidableEq, Repr

/-- The `OrderBook` class (onymos.py lines 18–24): two preallocated
fixed-size slot lists (`None` = empty slot) and the next insertion index
for each side. -/
structure OrderBook where
  buy_orders : List (Option Order)
  sell_orders : List (Option Order)
  buy_count : ℕ
  sell_count : ℕ
deriving DecidableEq, Repr

/-- `OrderBook.__init__`: both sides preallocated with `MAX_ORDERS_PER_SIDE`
empty slots and counts at 0. -/
def OrderBook.init : OrderBook :=
  { buy_orders := List.replicate MAX_ORDERS_PER_SIDE none
    sell_orders := List.replicate MAX_ORDERS_PER_SIDE none
    buy_count := 0
    sell_count := 0 }

/-- The global `orderBooks` registry: a list of `MAX_TICKERS` order books. -/
abbrev Registry := List OrderBook

/-- `orderBooks = [OrderBook() for _ in range(MAX_TICKERS)]` (line 27). -/
def initBooks : Registry := List.replicate MAX_TICKERS OrderBook.init

/-- Reading a slot: `orders[i]` where `None` marks an empty slot.  Out-of-range
reads (which the Python code never performs) also yield `none`. -/
def slotAt (orders : List (Option Order)) (i : ℕ) : Option Order :=
  orders.getD i none

/-- Reading `orderBooks[ticker]` for an in-range ticker. -/
def bookAt (books : Registry) (t : ℕ) : OrderBook :=
  books.getD t OrderBook.init

/-- Outcome labels for the control paths of `addOrder` (spec §6/§7; the
Python function itself returns `None` on every path — the source comment on
line 39 names the invalid-ticker path, line 44 is the capacity guard). -/
inductive AddOutcome where
  | Inserted
  | InvalidTicker
  | OrderBookFull
deriving DecidableEq, Repr

/-- The match record printed on line 92:
`Matched Ticker {ticker}: Buy at {order.price} with Sell at
{lowest_sell_price} (Quantity: {order.quantity})`. -/
structure MatchRecord where
  ticker : ℤ
  buyPrice : ℚ
  sellPrice : ℚ
  quantity : ℤ
deriving DecidableEq, Repr

/-- Outcome labels for the control paths of `matchOrder` (spec §6). -/
inductive MatchOutcome where
  | Matched (r : MatchRecord)
  | NoMatch
  | InvalidTicker
deriving DecidableEq, Repr

/-- Line 43/49: `index = book.buy_count` (resp. `sell_count`) — the read of
the insertion index, kept as its own micro-operation because the Python
statements are individually interleavable under concurrency. -/
def readBuyIndex (b : OrderBook) : ℕ := b.buy_count

/-- Line 49: `index = book.sell_count`. -/
def readSellIndex (b : OrderBook) : ℕ := b.sell_count

/-- Line 45: `book.buy_orders[index] = Order(...)` — store the new order. -/
def writeBuySlot (b : OrderBook) (index : ℕ) (o : Order) : OrderBook :=
  { b with buy_orders := b.buy_orders.set index (some o) }

/-- Line 51: `book.sell_orders[index] = Order(...)`. -/
def writeSellSlot (b : OrderBook) (index : ℕ) (o : Order) : OrderBook :=
  { b with sell_orders := b.sell_orders.set index (some o) }

/-- Line 47: `book.buy_count += 1`. -/
def incBuyCount (b : OrderBook) : OrderBook :=
  { b with buy_count := b.buy_count + 1 }

/-- Line 52: `book.sell_count += 1`. -/
def incSellCount (b : OrderBook) : OrderBook :=
  { b with sell_count := b.sell_count + 1 }

/-- `addOrder(order_type, ticker, quantity, price)` (onymos.py lines 29–52).
The new `Order(order_type, ticker, quantity, price)` has `active = True`.
The store happens before the count is advanced, exactly as in the source. -/
def addOrder (books : Registry) (order_type ticker quantity : ℤ) (price : ℚ) :
    AddOutcome × Registry :=
  if ticker < 0 ∨ (MAX_TICKERS : ℤ) ≤ ticker then
    (AddOutcome.InvalidTicker, books)
  else
    let t := ticker.toNat
    let book := bookAt books t
    let o : Order := ⟨true, order_type, ticker, quantity, price⟩
    if order_type = 0 then
      let index := readBuyIndex book
      if index < MAX_ORDERS_PER_SIDE then
        (AddOutcome.Inserted, books.set t (incBuyCount (writeBuySlot book index o)))
      else
        (AddOutcome.OrderBookFull, books)
    else
      let index := readSellIndex book
      if index < MAX_ORDERS_PER_SIDE then
        (AddOutcome.Inserted, books.set t (incSellCount (writeSellSlot book index o)))
      else
        (AddOutcome.OrderBookFull, books)

/-- One iteration of the sell scan (onymos.py lines 70–75): if slot `i` holds
an active order whose price beats the best so far, it becomes the best.  The
accumulator `none` stands for `lowest_sell_price = float('inf')`,
`lowest_sell_index = -1`: every rational price is `< inf`, so a first active
candidate always replaces it. -/
def sellScanStep (orders : List (Option Order)) (best : Option (ℚ × ℕ)) (i : ℕ) :
    Option (ℚ × ℕ) :=
  match slotAt orders i with
  | some o =>
    if o.active then
      match best with
      | none => some (o.price, i)
      | some (p, k) => if o.price < p then some (o.price, i) else some (p, k)
    else best
  | none => best

/-- The sell scan `for i in range(sell_count)` (lines 68–75): returns the
lowest active sell price together with its index, or `none` when no active
sell order exists (`lowest_sell_index == -1`).  `findLowestSell orders n`
processes indices `0, 1, …, n-1` in ascending order. -/
def findLowestSell (orders : List (Option Order)) : ℕ → Option (ℚ × ℕ)
  | 0 => none
  | n + 1 => sellScanStep orders (findLowestSell orders n) n

/-- The buy scan `for j in range(buy_count)` (onymos.py lines 81–93), started
at index `j` with `n` iterations remaining.  Returns the matched buy index
and match record (if any) together with the updated slot lists.  The nested
`if o.active` replays line 86's simulated compare-and-swap; when the sell
order has meanwhile become inactive the Python code falls through WITHOUT
breaking, leaving the buy order deactivated — that path is reproduced
faithfully. -/
def buyScanFrom (ticker : ℤ) (sp : ℚ) (si : ℕ) :
    ℕ → ℕ → List (Option Order) → List (Option Order) →
    Option (ℕ × MatchRecord) × List (Option Order) × List (Option Order)
  | 0, _, buys, sells => (none, buys, sells)
  | n + 1, j, buys, sells =>
    match slotAt buys j with
    | some o =>
      if o.active then
        if sp ≤ o.price then
          if o.active then
            let buys' := buys.set j (some { o with active := false })
            match slotAt sells si with
            | some so =>
              if so.active then
                (some (j, ⟨ticker, o.price, sp, o.quantity⟩),
                 buys', sells.set si (some { so with active := false }))
              else buyScanFrom ticker sp si n (j + 1) buys' sells
            | none => buyScanFrom ticker sp si n (j + 1) buys' sells
          else buyScanFrom ticker sp si n (j + 1) buys sells
        else buyScanFrom ticker sp si n (j + 1) buys sells
      else buyScanFrom ticker sp si n (j + 1) buys sells
    | none => buyScanFrom ticker sp si n (j + 1) buys sells

/-- `matchOrder(ticker)` (onymos.py lines 54–93), instrumented: besides the
outcome and the new registry it also reports which (buy, sell) slot pair was
settled, so that the selection theorems can speak about the chosen indices.
`matchOrder` below projects the instrumentation away. -/
def matchOrderAux (books : Registry) (ticker : ℤ) :
    MatchOutcome × Registry × Option (ℕ × ℕ) :=
  if ticker < 0 ∨ (MAX_TICKERS : ℤ) ≤ ticker then
    (MatchOutcome.InvalidTicker, books, none)
  else
    let t := ticker.toNat
    let book := bookAt books t
    match findLowestSell book.sell_orders book.sell_count with
    | none => (MatchOutcome.NoMatch, books, none)
    | some (sp, si) =>
      match buyScanFrom ticker sp si book.buy_count 0 book.buy_orders book.sell_orders with
      | (none, buys', sells') =>
        (MatchOutcome.NoMatch,
         books.set t { book with buy_orders := buys', sell_orders := sells' }, none)
      | (some (j, r), buys', sells') =>
        (MatchOutcome.Matched r,
         books.set t { book with buy_orders := buys', sell_orders := sells' }, some (j, si))

/-- `matchOrder(ticker)`: the public operation (outcome and state only). -/
def matchOrder (books : Registry) (ticker : ℤ) : MatchOutcome × Registry :=
  ((matchOrderAux books ticker).1, (matchOrderAux books ticker).2.1)

/-- A call into the core: the two entry points the harness drives. -/
inductive Op where
  | add (order_type ticker quantity : ℤ) (price : ℚ)
  | tryMatch (ticker : ℤ)
deriving DecidableEq, Repr

/-- State effect of one call. -/
def applyOp (books : Registry) : Op → Registry
  | Op.add oty t q p => (addOrder books oty t q p).2
  | Op.tryMatch t => (matchOrder books t).2

/-- Running a sequence of calls left to right. -/
def runOps (books : Registry) : List Op → Registry
  | [] => books
  | op :: ops => runOps (applyOp books op) ops

/-! ## Basic slot and book access lemmas -/

theorem slotAt_set_self (orders : List (Option Order)) (i : ℕ) (v : Option Order)
    (h : i < orders.length) : slotAt (orders.set i v) i = v := by
  simp [slotAt, List.getD_eq_getElem?_getD, List.getElem?_set_self h]

theorem slotAt_set_ne (orders : List (Option Order)) (i j : ℕ) (v : Option Order)
    (h : i ≠ j) : slotAt (orders.set i v) j = slotAt orders j := by
  simp [slotAt, List.getD_eq_getElem?_getD, List.getElem?_set_ne h]

theorem slotAt_of_length_le (orders : List (Option Order)) (i : ℕ)
    (h : orders.length ≤ i) : slotAt orders i = none := by
  simp [slotAt, List.getD_eq_getElem?_getD, List.getElem?_eq_none h]

theorem bookAt_set_self (books : Registry) (t : ℕ) (b : OrderBook)
    (h : t < books.length) : bookAt (books.set t b) t = b := by
  simp [bookAt, List.getD_eq_getElem?_getD, List.getElem?_set_self h]

theorem bookAt_set_ne (books : Registry) (t u : ℕ) (b : OrderBook)
    (h : t ≠ u) : bookAt (books.set t b) u = bookAt books u := by
  simp [bookAt, List.getD_eq_getElem?_getD, List.getElem?_set_ne h]

/-- The side of the book an `addOrder` call targets, and its insertion count:
`buy_count` when `order_type == 0`, else `sell_count` (lines 42–52). -/
def sideCount (books : Registry) (order_type ticker : ℤ) : ℕ :=
  if order_type = 0 then (bookAt books ticker.toNat).buy_count
  else (bookAt books ticker.toNat).sell_count

/-! ## C7: the concrete scenario -/

/-- C7: from the empty initial state, `addOrder(Sell,5,10,50)`,
`addOrder(Sell,5,10,40)`, `addOrder(Buy,5,10,60)`, then `matchOrder(5)`
yields `Matched{ticker 5, buyPrice 60, sellPrice 40, quantity 10}`, and the
50.0 sell order (slot 0 of ticker 5's sell side) is still active. -/
theorem scenario_two_sells_one_buy :
    (matchOrder (runOps initBooks
        [Op.add 1 5 10 50, Op.add 1 5 10 40, Op.add 0 5 10 60]) 5).1 =
      MatchOutcome.Matched ⟨5, 60, 40, 10⟩ ∧
    slotAt (bookAt (matchOrder (runOps initBooks
        [Op.add 1 5 10 50, Op.add 1 5 10 40, Op.add 0 5 10 60]) 5).2 5).sell_orders 0 =
      some ⟨true, 1, 5, 10, 50⟩ := by
  decide

/-! ## C5: invalid tickers -/

/-- C5: for a ticker id outside `[0, MAX_TICKERS)`, both `addOrder` and
`matchOrder` return `InvalidTicker` (the path labelled `# Invalid ticker` on
line 39 resp. the early return on line 63) and leave the registry —
every book, slot, count and flag — completely unchanged. -/
theorem invalid_ticker_rejected (books : Registry) (order_type ticker quantity : ℤ)
    (price : ℚ) (h : ticker < 0 ∨ (MAX_TICKERS : ℤ) ≤ ticker) :
    addOrder books order_type ticker quantity price = (AddOutcome.InvalidTicker, books) ∧
    matchOrder books ticker = (MatchOutcome.InvalidTicker, books) := by
  refine ⟨?_, ?_⟩ <;> simp [addOrder, matchOrder, matchOrderAux, if_pos h]

/-- Witness for `invalid_ticker_rejected` at ticker 1024 (= `MAX_TICKERS`). -/
theorem invalid_ticker_rejected_witness :
    addOrder initBooks 0 1024 10 50 = (AddOutcome.InvalidTicker, initBooks) ∧
    matchOrder initBooks 1024 = (MatchOutcome.InvalidTicker, initBooks) :=
  invalid_ticker_rejected initBooks 0 1024 10 50 (by decide)

/-! ## C4: capacity -/

/-- C4: each successful insertion advances the targeted side's count by
exactly 1 (so after exactly `MAX_ORDERS_PER_SIDE` successful insertions on
one (ticker, side) that side's count is `MAX_ORDERS_PER_SIDE`), and once the
side's count equals `MAX_ORDERS_PER_SIDE` the next `addOrder` on that
(ticker, side) returns `OrderBookFull` and performs no mutation at all: the
returned registry is the input registry. -/
theorem full_side_rejects_insertion (books : Registry)
    (order_type ticker quantity : ℤ) (price : ℚ)
    (ht : 0 ≤ ticker ∧ ticker < (MAX_TICKERS : ℤ)) :
    (books.length = MAX_TICKERS →
      (addOrder books order_type ticker quantity price).1 = AddOutcome.Inserted →
      sideCount (addOrder books order_type ticker quantity price).2 order_type ticker =
        sideCount books order_type ticker + 1) ∧
    (sideCount books order_type ticker = MAX_ORDERS_PER_SIDE →
      addOrder books order_type ticker quantity price = (AddOutcome.OrderBookFull, books)) := by
  have hM : MAX_TICKERS = 1024 := rfl
  have hvalid : ¬(ticker < 0 ∨ (MAX_TICKERS : ℤ) ≤ ticker) := by
    rcases ht with ⟨h1, h2⟩
    push_neg
    exact ⟨h1, h2⟩
  have htn : ticker.toNat < books.length → ticker.toNat < books.length := fun h => h
  constructor
  · intro hl hins
    have htlt : ticker.toNat < books.length := by
      rw [hl, hM]
      omega
    by_cases h0 : order_type = 0
    · by_cases hc : (bookAt books ticker.toNat).buy_count < MAX_ORDERS_PER_SIDE
      · simp only [addOrder, if_neg hvalid, if_pos h0, readBuyIndex, if_pos hc,
          sideCount, bookAt_set_self _ _ _ htlt]
        rfl
      · simp only [addOrder, if_neg hvalid, if_pos h0, readBuyIndex, if_neg hc] at hins
        exact absurd hins (by simp)
    · by_cases hc : (bookAt books ticker.toNat).sell_count < MAX_ORDERS_PER_SIDE
      · simp only [addOrder, if_neg hvalid, if_neg h0, readSellIndex, if_pos hc,
          sideCount, bookAt_set_self _ _ _ htlt]
        rfl
      · simp only [addOrder, if_neg hvalid, if_neg h0, readSellIndex, if_neg hc] at hins
        exact absurd hins (by simp)
  · intro hfull
    by_cases h0 : order_type = 0
    · simp only [sideCount, if_pos h0] at hfull
      simp only [addOrder, if_neg hvalid, if_pos h0, readBuyIndex, hfull, lt_irrefl,
        if_false]
    · simp only [sideCount, if_neg h0] at hfull
      simp only [addOrder, if_neg hvalid, if_neg h0, readSellIndex, hfull, lt_irrefl,
        if_false]

/-- Witness for `full_side_rejects_insertion`: a registry whose book 0 has
`buy_count = MAX_ORDERS_PER_SIDE`; the next buy insertion is rejected
unchanged. -/
theorem full_side_rejects_insertion_witness :
    addOrder (initBooks.set 0 { OrderBook.init with buy_count := MAX_ORDERS_PER_SIDE })
        0 0 10 50 =
      (AddOutcome.OrderBookFull,
       initBooks.set 0 { OrderBook.init with buy_count := MAX_ORDERS_PER_SIDE }) :=
  (full_side_rejects_insertion
    (initBooks.set 0 { OrderBook.init with buy_count := MAX_ORDERS_PER_SIDE })
    0 0 10 50 (by decide)).2 (by decide)

/-! ## C3: anatomy of a successful buy insertion -/

/-- C3: a successful `addOrder(Buy, t, q, p)` on a valid ticker whose buy
side is not full returns `Inserted`; the resulting registry is exactly the
old one with ticker `t`'s book replaced by `incBuyCount (writeBuySlot …)`,
i.e. the order is stored (line 45) before the count is advanced (line 47),
and the intermediate book after the store still has the old count while the
fully-formed order already sits at that index; in the final state the buy
count has grown by exactly 1, the new slot holds
`{active := true, quantity := q, price := p}`, and nothing else changed:
all other buy slots, the whole sell side, and every other ticker's book are
untouched. -/
theorem addOrder_buy_success (books : Registry) (ticker quantity : ℤ) (price : ℚ)
    (hl : books.length = MAX_TICKERS)
    (ht : 0 ≤ ticker ∧ ticker < (MAX_TICKERS : ℤ))
    (hc : (bookAt books ticker.toNat).buy_count < MAX_ORDERS_PER_SIDE)
    (hlen : (bookAt books ticker.toNat).buy_orders.length = MAX_ORDERS_PER_SIDE) :
    (addOrder books 0 ticker quantity price).1 = AddOutcome.Inserted ∧
    (addOrder books 0 ticker quantity price).2 =
      books.set ticker.toNat
        (incBuyCount (writeBuySlot (bookAt books ticker.toNat)
          (readBuyIndex (bookAt books ticker.toNat)) ⟨true, 0, ticker, quantity, price⟩)) ∧
    (writeBuySlot (bookAt books ticker.toNat)
        (readBuyIndex (bookAt books ticker.toNat))
        ⟨true, 0, ticker, quantity, price⟩).buy_count =
      (bookAt books ticker.toNat).buy_count ∧
    slotAt (writeBuySlot (bookAt books ticker.toNat)
        (readBuyIndex (bookAt books ticker.toNat))
        ⟨true, 0, ticker, quantity, price⟩).buy_orders
        (bookAt books ticker.toNat).buy_count =
      some ⟨true, 0, ticker, quantity, price⟩ ∧
    (bookAt (addOrder books 0 ticker quantity price).2 ticker.toNat).buy_count =
      (bookAt books ticker.toNat).buy_count + 1 ∧
    slotAt (bookAt (addOrder books 0 ticker quantity price).2 ticker.toNat).buy_orders
        (bookAt books ticker.toNat).buy_count =
      some ⟨true, 0, ticker, quantity, price⟩ ∧
    (∀ i, i ≠ (bookAt books ticker.toNat).buy_count →
      slotAt (bookAt (addOrder books 0 ticker quantity price).2 ticker.toNat).buy_orders i =
        slotAt (bookAt books ticker.toNat).buy_orders i) ∧
    (bookAt (addOrder books 0 ticker quantity price).2 ticker.toNat).sell_orders =
      (bookAt books ticker.toNat).sell_orders ∧
    (bookAt (addOrder books 0 ticker quantity price).2 ticker.toNat).sell_count =
      (bookAt books ticker.toNat).sell_count ∧
    (∀ u, u ≠ ticker.toNat →
      bookAt (addOrder books 0 ticker quantity price).2 u = bookAt books u) := by
  have hM : MAX_TICKERS = 1024 := rfl
  have hvalid : ¬(ticker < 0 ∨ (MAX_TICKERS : ℤ) ≤ ticker) := by
    rcases ht with ⟨h1, h2⟩
    push_neg
    exact ⟨h1, h2⟩
  have htlt : ticker.toNat < books.length := by
    rw [hl, hM]
    omega
  have hclen : (bookAt books ticker.toNat).buy_count <
      (bookAt books ticker.toNat).buy_orders.length := by
    rw [hlen]
    exact hc
  have hres : addOrder books 0 ticker quantity price =
      (AddOutcome.Inserted,
       books.set ticker.toNat
        (incBuyCount (writeBuySlot (bookAt books ticker.toNat)
          (readBuyIndex (bookAt books ticker.toNat)) ⟨true, 0, ticker, quantity, price⟩))) := by
    simp only [addOrder, if_neg hvalid, if_pos rfl, if_true, eq_self_iff_true,
      readBuyIndex, if_pos hc]
  refine ⟨by rw [hres], by rw [hres], rfl, slotAt_set_self _ _ _ hclen, ?_, ?_, ?_, ?_, ?_, ?_⟩
  · rw [hres]
    simp only [bookAt_set_self _ _ _ htlt]
    rfl
  · rw [hres]
    simp only [bookAt_set_self _ _ _ htlt, incBuyCount, writeBuySlot, readBuyIndex]
    exact slotAt_set_self _ _ _ hclen
  · intro i hi
    rw [hres]
    simp only [bookAt_set_self _ _ _ htlt, incBuyCount, writeBuySlot, readBuyIndex]
    exact slotAt_set_ne _ _ _ _ (fun h => hi h.symm)
  · rw [hres]
    simp only [bookAt_set_self _ _ _ htlt]
    rfl
  · rw [hres]
    simp only [bookAt_set_self _ _ _ htlt]
    rfl
  · intro u hu
    rw [hres]
    exact bookAt_set_ne _ _ _ _ (fun h => hu h.symm)

set_option maxRecDepth 8192 in
/-- Witness for `addOrder_buy_success` at the empty registry, ticker 3,
quantity 7, price 21/2. -/
theorem addOrder_buy_success_witness :
    (addOrder initBooks 0 3 7 (21 / 2)).1 = AddOutcome.Inserted ∧
    slotAt (bookAt (addOrder initBooks 0 3 7 (21 / 2)).2 3).buy_orders 0 =
      some ⟨true, 0, 3, 7, 21 / 2⟩ := by
  have h := addOrder_buy_success initBooks 3 7 (21 / 2) (by decide) (by decide)
    (by decide) (by decide)
  exact ⟨h.1, h.2.2.2.2.2.1⟩

/-! ## C10: the only validated input is the ticker range -/

/-- C10: `addOrder` validates nothing but the ticker range.  For a valid
ticker whose target side is not full, every quantity and price — zero and
negative included, since `quantity` and `price` here range over all of `ℤ`
and `ℚ` with no hypothesis — is accepted (`Inserted`) and stored verbatim
in the new order, and every `order_type` other than `0`, not just `1`, lands
on the sell side (line 48's bare `else`), leaving the buy side untouched. -/
theorem addOrder_validates_only_ticker (books : Registry)
    (order_type ticker quantity : ℤ) (price : ℚ)
    (hl : books.length = MAX_TICKERS)
    (ht : 0 ≤ ticker ∧ ticker < (MAX_TICKERS : ℤ))
    (hoty : order_type ≠ 0)
    (hc : (bookAt books ticker.toNat).sell_count < MAX_ORDERS_PER_SIDE)
    (hlen : (bookAt books ticker.toNat).sell_orders.length = MAX_ORDERS_PER_SIDE) :
    (addOrder books order_type ticker quantity price).1 = AddOutcome.Inserted ∧
    slotAt (bookAt (addOrder books order_type ticker quantity price).2 ticker.toNat).sell_orders
        (bookAt books ticker.toNat).sell_count =
      some ⟨true, order_type, ticker, quantity, price⟩ ∧
    (bookAt (addOrder books order_type ticker quantity price).2 ticker.toNat).sell_count =
      (bookAt books ticker.toNat).sell_count + 1 ∧
    (bookAt (addOrder books order_type ticker quantity price).2 ticker.toNat).buy_orders =
      (bookAt books ticker.toNat).buy_orders ∧
    (bookAt (addOrder books order_type ticker quantity price).2 ticker.toNat).buy_count =
      (bookAt books ticker.toNat).buy_count := by
  have hM : MAX_TICKERS = 1024 := rfl
  have hvalid : ¬(ticker < 0 ∨ (MAX_TICKERS : ℤ) ≤ ticker) := by
    rcases ht with ⟨h1, h2⟩
    push_neg
    exact ⟨h1, h2⟩
  have htlt : ticker.toNat < books.length := by
    rw [hl, hM]
    omega
  have hclen : (bookAt books ticker.toNat).sell_count <
      (bookAt books ticker.toNat).sell_orders.length := by
    rw [hlen]
    exact hc
  have hres : addOrder books order_type ticker quantity price =
      (AddOutcome.Inserted,
       books.set ticker.toNat
        (incSellCount (writeSellSlot (bookAt books ticker.toNat)
          (readSellIndex (bookAt books ticker.toNat))
          ⟨true, order_type, ticker, quantity, price⟩))) := by
    simp only [addOrder, if_neg hvalid, if_neg hoty, readSellIndex, if_pos hc]
  refine ⟨by rw [hres], ?_, ?_, ?_, ?_⟩ <;>
    rw [hres] <;>
    simp only [bookAt_set_self _ _ _ htlt, incSellCount, writeSellSlot, readSellIndex]
  · exact slotAt_set_self _ _ _ hclen

set_option maxRecDepth 8192 in
/-- Witness for `addOrder_validates_only_ticker`: `order_type = 2`,
`quantity = 0`, negative price `-3/2`, ticker 7 on the empty registry. -/
theorem addOrder_validates_only_ticker_witness :
    (addOrder initBooks 2 7 0 (-3 / 2)).1 = AddOutcome.Inserted ∧
    slotAt (bookAt (addOrder initBooks 2 7 0 (-3 / 2)).2 7).sell_orders 0 =
      some ⟨true, 2, 7, 0, -3 / 2⟩ := by
  have h := addOrder_validates_only_ticker initBooks 2 7 0 (-3 / 2)
    (by decide) (by decide) (by decide) (by decide) (by decide)
  exact ⟨h.1, h.2.1⟩

/-! ## Characterizing the sell scan (lines 67–78) -/

/-- A scan step over an empty slot leaves the best candidate unchanged. -/
theorem sellScanStep_empty (orders : List (Option Order)) (best : Option (ℚ × ℕ))
    (i : ℕ) (hs : slotAt orders i = none) : sellScanStep orders best i = best := by
  unfold sellScanStep
  rw [hs]

/-- A scan step over an inactive order leaves the best candidate unchanged. -/
theorem sellScanStep_inactive (orders : List (Option Order)) (best : Option (ℚ × ℕ))
    (i : ℕ) (o : Order) (hs : slotAt orders i = some o) (ha : o.active = false) :
    sellScanStep orders best i = best := by
  unfold sellScanStep
  rw [hs]
  simp [ha]

/-- A scan step over an active order with no previous candidate picks it
(every price is below the initial `float('inf')`). -/
theorem sellScanStep_active_first (orders : List (Option Order)) (i : ℕ) (o : Order)
    (hs : slotAt orders i = some o) (ha : o.active = true) :
    sellScanStep orders none i = some (o.price, i) := by
  unfold sellScanStep
  rw [hs]
  simp [ha]

/-- A scan step over an active order against a previous candidate keeps the
lower price, the previous one on ties (line 73's strict `<`). -/
theorem sellScanStep_active_cmp (orders : List (Option Order)) (i : ℕ) (o : Order)
    (p : ℚ) (k : ℕ) (hs : slotAt orders i = some o) (ha : o.active = true) :
    sellScanStep orders (some (p, k)) i =
      if o.price < p then some (o.price, i) else some (p, k) := by
  unfold sellScanStep
  rw [hs]
  simp [ha]

/-- If the sell scan ends with `lowest_sell_index == -1` (modelled `none`),
every populated scanned slot was inactive. -/
theorem findLowestSell_eq_none (orders : List (Option Order)) (n : ℕ)
    (h : findLowestSell orders n = none) :
    ∀ i, i < n → ∀ o, slotAt orders i = some o → o.active = false := by
  induction n with
  | zero => intro i hi; omega
  | succ n ih =>
    rw [findLowestSell] at h
    cases hs : slotAt orders n with
    | none =>
      rw [sellScanStep_empty _ _ _ hs] at h
      intro i hi o ho
      rcases Nat.lt_succ_iff_lt_or_eq.mp hi with h1 | rfl
      · exact ih h i h1 o ho
      · rw [ho] at hs
        exact absurd hs (by simp)
    | some o' =>
      cases ha : o'.active with
      | false =>
        rw [sellScanStep_inactive _ _ _ _ hs ha] at h
        intro i hi o ho
        rcases Nat.lt_succ_iff_lt_or_eq.mp hi with h1 | rfl
        · exact ih h i h1 o ho
        · rw [ho] at hs
          have ho' : o = o' := by injection hs
          rw [ho']
          exact ha
      | true =>
        cases hb : findLowestSell orders n with
        | none =>
          rw [hb, sellScanStep_active_first _ _ _ hs ha] at h
          exact absurd h (by simp)
        | some pk =>
          obtain ⟨p, k⟩ := pk
          rw [hb, sellScanStep_active_cmp _ _ _ _ _ hs ha] at h
          split at h <;> exact absurd h (by simp)

/-- If some scanned slot is populated and active, the sell scan returns a
candidate. -/
theorem findLowestSell_isSome (orders : List (Option Order)) (n i : ℕ)
    (hi : i < n) (o : Order) (ho : slotAt orders i = some o)
    (ha : o.active = true) :
    ∃ pk, findLowestSell orders n = some pk := by
  cases h : findLowestSell orders n with
  | some pk => exact ⟨pk, rfl⟩
  | none =>
    have := findLowestSell_eq_none orders n h i hi o ho
    rw [ha] at this
    exact absurd this (by simp)

/-- Full specification of a successful sell scan: the returned index is in
range and holds an active order at the returned price; that price is a lower
bound on every scanned active order's price; and every active order at a
strictly smaller index has a strictly greater price (ties go to the lowest
index, because line 73 compares with a strict `<`). -/
theorem findLowestSell_spec (orders : List (Option Order)) (n : ℕ) (p : ℚ) (i : ℕ)
    (h : findLowestSell orders n = some (p, i)) :
    i < n ∧
    (∃ o, slotAt orders i = some o ∧ o.active = true ∧ o.price = p) ∧
    (∀ j, j < n → ∀ o, slotAt orders j = some o → o.active = true → p ≤ o.price) ∧
    (∀ j, j < i → ∀ o, slotAt orders j = some o → o.active = true → p < o.price) := by
  induction n generalizing p i with
  | zero => exact absurd h (by simp [findLowestSell])
  | succ n ih =>
    rw [findLowestSell] at h
    cases hb : findLowestSell orders n with
    | none =>
      have hnone := findLowestSell_eq_none orders n hb
      rw [hb] at h
      cases hs : slotAt orders n with
      | none =>
        rw [sellScanStep_empty _ _ _ hs] at h
        exact absurd h (by simp)
      | some o' =>
        cases ha : o'.active with
        | false =>
          rw [sellScanStep_inactive _ _ _ _ hs ha] at h
          exact absurd h (by simp)
        | true =>
          rw [sellScanStep_active_first _ _ _ hs ha] at h
          have hp : o'.price = p := by injection h with h1; injection h1
          have hi : n = i := by injection h with h1; injection h1
          subst hi
          refine ⟨Nat.lt_succ_self n, ⟨o', hs, ha, hp⟩, ?_, ?_⟩
          · intro j hj o hoj hao
            rcases Nat.lt_succ_iff_lt_or_eq.mp hj with h1 | rfl
            · rw [hnone j h1 o hoj] at hao
              exact absurd hao (by simp)
            · rw [hoj] at hs
              have ho' : o = o' := by injection hs
              rw [ho', hp]
          · intro j hj o hoj hao
            rw [hnone j hj o hoj] at hao
            exact absurd hao (by simp)
    | some pk =>
      obtain ⟨q, k⟩ := pk
      obtain ⟨hk, ⟨ok, hok, haok, hpk⟩, hmin, hstrict⟩ := ih q k hb
      rw [hb] at h
      cases hs : slotAt orders n with
      | none =>
        rw [sellScanStep_empty _ _ _ hs] at h
        have hq : q = p := by injection h with h1; injection h1
        have hki : k = i := by injection h with h1; injection h1
        subst hq hki
        refine ⟨Nat.lt_succ_of_lt hk, ⟨ok, hok, haok, hpk⟩, ?_, hstrict⟩
        intro j hj o hoj hao
        rcases Nat.lt_succ_iff_lt_or_eq.mp hj with h1 | rfl
        · exact hmin j h1 o hoj hao
        · rw [hoj] at hs
          exact absurd hs (by simp)
      | some o' =>
        cases ha : o'.active with
        | false =>
          rw [sellScanStep_inactive _ _ _ _ hs ha] at h
          have hq : q = p := by injection h with h1; injection h1
          have hki : k = i := by injection h with h1; injection h1
          subst hq hki
          refine ⟨Nat.lt_succ_of_lt hk, ⟨ok, hok, haok, hpk⟩, ?_, hstrict⟩
          intro j hj o hoj hao
          rcases Nat.lt_succ_iff_lt_or_eq.mp hj with h1 | rfl
          · exact hmin j h1 o hoj hao
          · rw [hoj] at hs
            have ho' : o = o' := by injection hs
            rw [ho', ha] at hao
            exact absurd hao (by simp)
        | true =>
          rw [sellScanStep_active_cmp _ _ _ _ _ hs ha] at h
          by_cases hlt : o'.price < q
          · rw [if_pos hlt] at h
            have hp : o'.price = p := by injection h with h1; injection h1
            have hi : n = i := by injection h with h1; injection h1
            subst hi
            refine ⟨Nat.lt_succ_self n, ⟨o', hs, ha, hp⟩, ?_, ?_⟩
            · intro j hj o hoj hao
              rcases Nat.lt_succ_iff_lt_or_eq.mp hj with h1 | rfl
              · exact le_of_lt (lt_of_lt_of_le (hp ▸ hlt) (hmin j h1 o hoj hao))
              · rw [hoj] at hs
                have ho' : o = o' := by injection hs
                rw [ho', hp]
            · intro j hj o hoj hao
              exact lt_of_lt_of_le (hp ▸ hlt) (hmin j hj o hoj hao)
          · rw [if_neg hlt] at h
            have hq : q = p := by injection h with h1; injection h1
            have hki : k = i := by injection h with h1; injection h1
            subst hq hki
            refine ⟨Nat.lt_succ_of_lt hk, ⟨ok, hok, haok, hpk⟩, ?_, hstrict⟩
            intro j hj o hoj hao
            rcases Nat.lt_succ_iff_lt_or_eq.mp hj with h1 | rfl
            · exact hmin j h1 o hoj hao
            · rw [hoj] at hs
              have ho' : o = o' := by injection hs
              rw [ho']
              exact le_of_not_lt hlt

/-! ## C1: the match selects the globally lowest-priced active sell order -/

/-- C1: on a valid ticker with at least one active sell order, the sell-side
scan of `matchOrder` succeeds and selects an active sell order whose price
is a global minimum over the ticker's active sell orders (all populated
slots lie below `sell_count` by the third hypothesis, so the bound is
global), with price ties resolved to the lowest slot index — every active
order at a smaller index is strictly more expensive; and whenever the
invocation settles a pair, the settled sell index is exactly the selected
one. -/
theorem matchOrder_selects_lowest_sell (books : Registry) (ticker : ℤ)
    (ht : 0 ≤ ticker ∧ ticker < (MAX_TICKERS : ℤ))
    (hex : ∃ i, i < (bookAt books ticker.toNat).sell_count ∧
      ∃ o, slotAt (bookAt books ticker.toNat).sell_orders i = some o ∧ o.active = true)
    (hz : ∀ j, (bookAt books ticker.toNat).sell_count ≤ j →
      slotAt (bookAt books ticker.toNat).sell_orders j = none) :
    ∃ p i, findLowestSell (bookAt books ticker.toNat).sell_orders
        (bookAt books ticker.toNat).sell_count = some (p, i) ∧
      i < (bookAt books ticker.toNat).sell_count ∧
      (∃ o, slotAt (bookAt books ticker.toNat).sell_orders i = some o ∧
        o.active = true ∧ o.price = p) ∧
      (∀ j o, slotAt (bookAt books ticker.toNat).sell_orders j = some o →
        o.active = true → p ≤ o.price) ∧
      (∀ j, j < i → ∀ o, slotAt (bookAt books ticker.toNat).sell_orders j = some o →
        o.active = true → p < o.price) ∧
      (∀ jb js, (matchOrderAux books ticker).2.2 = some (jb, js) → js = i) := by
  have hvalid : ¬(ticker < 0 ∨ (MAX_TICKERS : ℤ) ≤ ticker) := by
    rcases ht with ⟨h1, h2⟩
    push_neg
    exact ⟨h1, h2⟩
  obtain ⟨i0, hi0, o0, ho0, ha0⟩ := hex
  obtain ⟨⟨p, i⟩, hfound⟩ := findLowestSell_isSome _ _ _ hi0 o0 ho0 ha0
  obtain ⟨hilt, hslot, hmin, hstrict⟩ := findLowestSell_spec _ _ _ _ hfound
  refine ⟨p, i, hfound, hilt, hslot, ?_, hstrict, ?_⟩
  · intro j o hoj hao
    by_cases hj : j < (bookAt books ticker.toNat).sell_count
    · exact hmin j hj o hoj hao
    · rw [hz j (le_of_not_lt hj)] at hoj
      exact absurd hoj (by simp)
  · intro jb js hjs
    rw [matchOrderAux] at hjs
    rw [if_neg hvalid] at hjs
    simp only [hfound] at hjs
    rcases hscan : buyScanFrom ticker p i (bookAt books ticker.toNat).buy_count 0
        (bookAt books ticker.toNat).buy_orders (bookAt books ticker.toNat).sell_orders with
      ⟨res, buys', sells'⟩
    rw [hscan] at hjs
    cases res with
    | none => simp at hjs
    | some jr =>
      obtain ⟨jm, r⟩ := jr
      simp at hjs
      exact hjs.2.symm

/-- Witness for `matchOrder_selects_lowest_sell`: a one-book registry whose
sell side holds an active order at 50 (slot 0) and one at 40 (slot 1); the
scan selects slot 1 at price 40. -/
theorem matchOrder_selects_lowest_sell_witness :
    ∃ p i,
      findLowestSell
          (bookAt [⟨[], [some ⟨true, 1, 0, 10, 50⟩, some ⟨true, 1, 0, 10, 40⟩], 0, 2⟩] 0).sell_orders
          (bookAt [⟨[], [some ⟨true, 1, 0, 10, 50⟩, some ⟨true, 1, 0, 10, 40⟩], 0, 2⟩] 0).sell_count =
        some (p, i) ∧
      i < (bookAt [⟨[], [some ⟨true, 1, 0, 10, 50⟩, some ⟨true, 1, 0, 10, 40⟩], 0, 2⟩] 0).sell_count ∧
      (∃ o, slotAt (bookAt [⟨[], [some ⟨true, 1, 0, 10, 50⟩, some ⟨true, 1, 0, 10, 40⟩], 0, 2⟩] 0).sell_orders i =
          some o ∧ o.active = true ∧ o.price = p) ∧
      (∀ j o, slotAt (bookAt [⟨[], [some ⟨true, 1, 0, 10, 50⟩, some ⟨true, 1, 0, 10, 40⟩], 0, 2⟩] 0).sell_orders j =
          some o → o.active = true → p ≤ o.price) ∧
      (∀ j, j < i → ∀ o,
        slotAt (bookAt [⟨[], [some ⟨true, 1, 0, 10, 50⟩, some ⟨true, 1, 0, 10, 40⟩], 0, 2⟩] 0).sell_orders j =
          some o → o.active = true → p < o.price) ∧
      (∀ jb js,
        (matchOrderAux [⟨[], [some ⟨true, 1, 0, 10, 50⟩, some ⟨true, 1, 0, 10, 40⟩], 0, 2⟩] 0).2.2 =
          some (jb, js) → js = i) :=
  matchOrder_selects_lowest_sell
    [⟨[], [some ⟨true, 1, 0, 10, 50⟩, some ⟨true, 1, 0, 10, 40⟩], 0, 2⟩] 0
    (by decide)
    ⟨0, by decide, ⟨⟨true, 1, 0, 10, 50⟩, by decide, rfl⟩⟩
    (fun j hj => slotAt_of_length_le _ _ (by simpa using hj))

/-! ## Characterizing the buy scan (lines 80–93) -/

/-- Scanning past an empty buy slot. -/
theorem buyScanFrom_succ_empty (ticker : ℤ) (sp : ℚ) (si n j : ℕ)
    (buys sells : List (Option Order)) (hsb : slotAt buys j = none) :
    buyScanFrom ticker sp si (n + 1) j buys sells =
      buyScanFrom ticker sp si n (j + 1) buys sells := by
  rw [buyScanFrom]
  rw [hsb]

/-- Scanning past an inactive buy order. -/
theorem buyScanFrom_succ_inactive (ticker : ℤ) (sp : ℚ) (si n j : ℕ)
    (buys sells : List (Option Order)) (o : Order)
    (hsb : slotAt buys j = some o) (hao : o.active = false) :
    buyScanFrom ticker sp si (n + 1) j buys sells =
      buyScanFrom ticker sp si n (j + 1) buys sells := by
  rw [buyScanFrom]
  rw [hsb]
  simp [hao]

/-- Scanning past an active buy order priced below the selected sell. -/
theorem buyScanFrom_succ_lowprice (ticker : ℤ) (sp : ℚ) (si n j : ℕ)
    (buys sells : List (Option Order)) (o : Order)
    (hsb : slotAt buys j = some o) (hao : o.active = true) (hp : ¬sp ≤ o.price) :
    buyScanFrom ticker sp si (n + 1) j buys sells =
      buyScanFrom ticker sp si n (j + 1) buys sells := by
  rw [buyScanFrom]
  rw [hsb]
  simp [hao, hp]

/-- The settlement branch: an eligible active buy order and a still-active
sell order — both flags drop, the match record is emitted, the loop breaks
(line 93). -/
theorem buyScanFrom_succ_hit (ticker : ℤ) (sp : ℚ) (si n j : ℕ)
    (buys sells : List (Option Order)) (o so : Order)
    (hsb : slotAt buys j = some o) (hao : o.active = true) (hp : sp ≤ o.price)
    (hso : slotAt sells si = some so) (haso : so.active = true) :
    buyScanFrom ticker sp si (n + 1) j buys sells =
      (some (j, ⟨ticker, o.price, sp, o.quantity⟩),
       buys.set j (some { o with active := false }),
       sells.set si (some { so with active := false })) := by
  rw [buyScanFrom]
  rw [hsb]
  simp [hao, hp, hso, haso]

/-- The stranding branch with an empty selected sell slot: the buy order is
deactivated, nothing is emitted, the loop continues (no `break`). -/
theorem buyScanFrom_succ_sellgone_empty (ticker : ℤ) (sp : ℚ) (si n j : ℕ)
    (buys sells : List (Option Order)) (o : Order)
    (hsb : slotAt buys j = some o) (hao : o.active = true) (hp : sp ≤ o.price)
    (hso : slotAt sells si = none) :
    buyScanFrom ticker sp si (n + 1) j buys sells =
      buyScanFrom ticker sp si n (j + 1) (buys.set j (some { o with active := false })) sells := by
  rw [buyScanFrom]
  rw [hsb]
  simp [hao, hp, hso]

/-- The stranding branch with an already-inactive selected sell order: the
buy order is deactivated, nothing is emitted, the loop continues. -/
theorem buyScanFrom_succ_sellgone_inactive (ticker : ℤ) (sp : ℚ) (si n j : ℕ)
    (buys sells : List (Option Order)) (o so : Order)
    (hsb : slotAt buys j = some o) (hao : o.active = true) (hp : sp ≤ o.price)
    (hso : slotAt sells si = some so) (haso : so.active = false) :
    buyScanFrom ticker sp si (n + 1) j buys sells =
      buyScanFrom ticker sp si n (j + 1) (buys.set j (some { o with active := false })) sells := by
  rw [buyScanFrom]
  rw [hsb]
  simp [hao, hp, hso, haso]

/-- Specification of a successful buy scan when the selected sell order is
populated and active (which the sequential sell scan guarantees): the match
settles at the first scanned index holding an active buy order priced at or
above the selected sell price; the record carries the buy order's price and
quantity and the selected sell price; exactly that buy slot and the selected
sell slot are deactivated, and the scan stops. -/
theorem buyScanFrom_match_spec (ticker : ℤ) (sp : ℚ) (si : ℕ) (so : Order)
    (n : ℕ) :
    ∀ (j : ℕ) (buys sells : List (Option Order)) (jm : ℕ) (r : MatchRecord)
      (buys' sells' : List (Option Order)),
      slotAt sells si = some so → so.active = true →
      buyScanFrom ticker sp si n j buys sells = (some (jm, r), buys', sells') →
      j ≤ jm ∧ jm < j + n ∧
      ∃ o, slotAt buys jm = some o ∧ o.active = true ∧ sp ≤ o.price ∧
        r = ⟨ticker, o.price, sp, o.quantity⟩ ∧
        (∀ k, j ≤ k → k < jm → ∀ o', slotAt buys k = some o' →
          o'.active = true → o'.price < sp) ∧
        buys' = buys.set jm (some { o with active := false }) ∧
        sells' = sells.set si (some { so with active := false }) := by
  induction n with
  | zero =>
    intro j buys sells jm r buys' sells' hso haso h
    exact absurd h (by simp [buyScanFrom])
  | succ n ih =>
    intro j buys sells jm r buys' sells' hso haso h
    cases hsb : slotAt buys j with
    | none =>
      rw [buyScanFrom_succ_empty _ _ _ _ _ _ _ hsb] at h
      obtain ⟨hj1, hj2, o, ho1, ho2, ho3, ho4, ho5, ho6, ho7⟩ :=
        ih (j + 1) buys sells jm r buys' sells' hso haso h
      refine ⟨by omega, by omega, o, ho1, ho2, ho3, ho4, ?_, ho6, ho7⟩
      intro k hk1 hk2 o' ho' hao'
      rcases Nat.lt_or_ge k (j + 1) with hk | hk
      · have hkj : k = j := by omega
        rw [hkj, hsb] at ho'
        exact absurd ho' (by simp)
      · exact ho5 k hk hk2 o' ho' hao'
    | some o0 =>
      cases hao0 : o0.active with
      | false =>
        rw [buyScanFrom_succ_inactive _ _ _ _ _ _ _ _ hsb hao0] at h
        obtain ⟨hj1, hj2, o, ho1, ho2, ho3, ho4, ho5, ho6, ho7⟩ :=
          ih (j + 1) buys sells jm r buys' sells' hso haso h
        refine ⟨by omega, by omega, o, ho1, ho2, ho3, ho4, ?_, ho6, ho7⟩
        intro k hk1 hk2 o' ho' hao'
        rcases Nat.lt_or_ge k (j + 1) with hk | hk
        · have hkj : k = j := by omega
          rw [hkj, hsb] at ho'
          have heq : o0 = o' := by injection ho'
          rw [← heq, hao0] at hao'
          exact absurd hao' (by simp)
        · exact ho5 k hk hk2 o' ho' hao'
      | true =>
        by_cases hp : sp ≤ o0.price
        · rw [buyScanFrom_succ_hit _ _ _ _ _ _ _ _ _ hsb hao0 hp hso haso] at h
          simp only [Prod.mk.injEq, Option.some.injEq] at h
          obtain ⟨⟨hjm, hr⟩, hb', hs'⟩ := h
          subst hjm
          refine ⟨le_refl j, by omega, o0, hsb, hao0, hp, hr.symm, ?_, hb'.symm, hs'.symm⟩
          intro k hk1 hk2 o' ho' hao'
          exact absurd hk2 (by omega)
        · rw [buyScanFrom_succ_lowprice _ _ _ _ _ _ _ _ hsb hao0 hp] at h
          obtain ⟨hj1, hj2, o, ho1, ho2, ho3, ho4, ho5, ho6, ho7⟩ :=
            ih (j + 1) buys sells jm r buys' sells' hso haso h
          refine ⟨by omega, by omega, o, ho1, ho2, ho3, ho4, ?_, ho6, ho7⟩
          intro k hk1 hk2 o' ho' hao'
          rcases Nat.lt_or_ge k (j + 1) with hk | hk
          · have hkj : k = j := by omega
            rw [hkj, hsb] at ho'
            have heq : o0 = o' := by injection ho'
            rw [← heq]
            exact lt_of_not_le hp
          · exact ho5 k hk hk2 o' ho' hao'

/-- Inversion of `matchOrderAux` on a `Matched` outcome: the ticker was
valid, the sell scan succeeded, the buy scan settled at some index, the
instrumentation reports exactly that pair, and the new registry replaces
the ticker's book with the scan's updated slot lists. -/
theorem matchOrderAux_matched_inv (books : Registry) (ticker : ℤ) (r : MatchRecord)
    (s2 : Registry) (idx : Option (ℕ × ℕ))
    (h : matchOrderAux books ticker = (MatchOutcome.Matched r, s2, idx)) :
    ∃ sp si jm buys' sells',
      ¬(ticker < 0 ∨ (MAX_TICKERS : ℤ) ≤ ticker) ∧
      findLowestSell (bookAt books ticker.toNat).sell_orders
        (bookAt books ticker.toNat).sell_count = some (sp, si) ∧
      buyScanFrom ticker sp si (bookAt books ticker.toNat).buy_count 0
        (bookAt books ticker.toNat).buy_orders (bookAt books ticker.toNat).sell_orders =
        (some (jm, r), buys', sells') ∧
      idx = some (jm, si) ∧
      s2 = books.set ticker.toNat
        { bookAt books ticker.toNat with buy_orders := buys', sell_orders := sells' } := by
  by_cases hv : ticker < 0 ∨ (MAX_TICKERS : ℤ) ≤ ticker
  · rw [matchOrderAux, if_pos hv] at h
    exact absurd (congrArg Prod.fst h) (by simp)
  · rw [matchOrderAux, if_neg hv] at h
    cases hf : findLowestSell (bookAt books ticker.toNat).sell_orders
        (bookAt books ticker.toNat).sell_count with
    | none =>
      simp only [hf] at h
      exact absurd (congrArg Prod.fst h) (by simp)
    | some pk =>
      obtain ⟨sp, si⟩ := pk
      simp only [hf] at h
      rcases hscan : buyScanFrom ticker sp si (bookAt books ticker.toNat).buy_count 0
          (bookAt books ticker.toNat).buy_orders (bookAt books ticker.toNat).sell_orders with
        ⟨res, buys', sells'⟩
      rw [hscan] at h
      cases res with
      | none =>
        simp only [Prod.mk.injEq] at h
        exact absurd h.1 (by simp)
      | some jr =>
        obtain ⟨jm, r'⟩ := jr
        simp only [Prod.mk.injEq, MatchOutcome.Matched.injEq] at h
        obtain ⟨hr, hs2, hidx⟩ := h
        exact ⟨sp, si, jm, buys', sells', hv, rfl, by rw [← hr]; exact hscan, hidx.symm, hs2.symm⟩

/-! ## C2: anatomy of an emitted match -/

/-- C2: whenever `matchOrder` emits a match, the settled buy order is the
FIRST active buy order in insertion order whose price is at least the
selected sell price (every earlier active buy order is strictly cheaper than
the sell price); the emitted record carries `buyPrice = ` that buy order's
price `≥ sellPrice = ` the selected sell price, and `quantity = ` the buy
order's quantity (the sell order's quantity is ignored); and exactly one
pair is settled — the scan `break`s, so the resulting registry differs only
in that one buy slot and the one selected sell slot, i.e. at most one match
per invocation. -/
theorem matchOrder_match_anatomy (books : Registry) (ticker : ℤ) (r : MatchRecord)
    (s' : Registry) (hm : matchOrder books ticker = (MatchOutcome.Matched r, s')) :
    ∃ sp si so jm o,
      findLowestSell (bookAt books ticker.toNat).sell_orders
        (bookAt books ticker.toNat).sell_count = some (sp, si) ∧
      slotAt (bookAt books ticker.toNat).sell_orders si = some so ∧
      so.active = true ∧ so.price = sp ∧
      jm < (bookAt books ticker.toNat).buy_count ∧
      slotAt (bookAt books ticker.toNat).buy_orders jm = some o ∧
      o.active = true ∧ sp ≤ o.price ∧
      (∀ k, k < jm → ∀ o', slotAt (bookAt books ticker.toNat).buy_orders k = some o' →
        o'.active = true → o'.price < sp) ∧
      r = ⟨ticker, o.price, sp, o.quantity⟩ ∧
      r.sellPrice ≤ r.buyPrice ∧
      r.quantity = o.quantity ∧
      s' = books.set ticker.toNat
        { bookAt books ticker.toNat with
          buy_orders := (bookAt books ticker.toNat).buy_orders.set jm
            (some { o with active := false }),
          sell_orders := (bookAt books ticker.toNat).sell_orders.set si
            (some { so with active := false }) } := by
  have haux : matchOrderAux books ticker =
      (MatchOutcome.Matched r, s', (matchOrderAux books ticker).2.2) := by
    have h1 : (matchOrderAux books ticker).1 = MatchOutcome.Matched r := by
      have := congrArg Prod.fst hm
      simpa [matchOrder] using this
    have h2 : (matchOrderAux books ticker).2.1 = s' := by
      have := congrArg Prod.snd hm
      simpa [matchOrder] using this
    rw [← h1, ← h2]
  obtain ⟨sp, si, jm, buys', sells', hv, hf, hscan, hidx, hs2⟩ :=
    matchOrderAux_matched_inv books ticker r s' _ haux
  obtain ⟨_, ⟨so, hso, haso, hpso⟩, _, _⟩ := findLowestSell_spec _ _ _ _ hf
  obtain ⟨_, hjm2, o, ho1, ho2, ho3, ho4, ho5, hb', hsells'⟩ :=
    buyScanFrom_match_spec ticker sp si so _ 0 _ _ jm r buys' sells' hso haso hscan
  refine ⟨sp, si, so, jm, o, hf, hso, haso, hpso, by omega, ho1, ho2, ho3, ?_,
    ho4, by rw [ho4]; exact ho3, by rw [ho4], ?_⟩
  · intro k hk o' ho' hao'
    exact ho5 k (Nat.zero_le k) hk o' ho' hao'
  · rw [hs2, hb', hsells']

/-- Witness for `matchOrder_match_anatomy`: a one-book registry with one buy
order at 60 and two active sell orders at 50 and 40; the match settles
buy 0 against sell 1. -/
theorem matchOrder_match_anatomy_witness :
    ∃ sp si so jm o,
      findLowestSell
        (bookAt [⟨[some ⟨true, 0, 0, 10, 60⟩],
          [some ⟨true, 1, 0, 10, 50⟩, some ⟨true, 1, 0, 10, 40⟩], 1, 2⟩] 0).sell_orders
        (bookAt [⟨[some ⟨true, 0, 0, 10, 60⟩],
          [some ⟨true, 1, 0, 10, 50⟩, some ⟨true, 1, 0, 10, 40⟩], 1, 2⟩] 0).sell_count =
        some (sp, si) ∧
      slotAt (bookAt [⟨[some ⟨true, 0, 0, 10, 60⟩],
        [some ⟨true, 1, 0, 10, 50⟩, some ⟨true, 1, 0, 10, 40⟩], 1, 2⟩] 0).sell_orders si =
        some so ∧
      so.active = true ∧ so.price = sp ∧
      jm < (bookAt [⟨[some ⟨true, 0, 0, 10, 60⟩],
        [some ⟨true, 1, 0, 10, 50⟩, some ⟨true, 1, 0, 10, 40⟩], 1, 2⟩] 0).buy_count ∧
      slotAt (bookAt [⟨[some ⟨true, 0, 0, 10, 60⟩],
        [some ⟨true, 1, 0, 10, 50⟩, some ⟨true, 1, 0, 10, 40⟩], 1, 2⟩] 0).buy_orders jm =
        some o ∧
      o.active = true ∧ sp ≤ o.price ∧
      (∀ k, k < jm → ∀ o', slotAt (bookAt [⟨[some ⟨true, 0, 0, 10, 60⟩],
        [some ⟨true, 1, 0, 10, 50⟩, some ⟨true, 1, 0, 10, 40⟩], 1, 2⟩] 0).buy_orders k =
          some o' → o'.active = true → o'.price < sp) ∧
      (⟨0, 60, 40, 10⟩ : MatchRecord) = ⟨0, o.price, sp, o.quantity⟩ ∧
      (⟨0, 60, 40, 10⟩ : MatchRecord).sellPrice ≤ (⟨0, 60, 40, 10⟩ : MatchRecord).buyPrice ∧
      (⟨0, 60, 40, 10⟩ : MatchRecord).quantity = o.quantity ∧
      [⟨[some ⟨false, 0, 0, 10, 60⟩],
        [some ⟨true, 1, 0, 10, 50⟩, some ⟨false, 1, 0, 10, 40⟩], 1, 2⟩] =
        [⟨[some ⟨true, 0, 0, 10, 60⟩],
          [some ⟨true, 1, 0, 10, 50⟩, some ⟨true, 1, 0, 10, 40⟩], 1, 2⟩].set 0
          { bookAt [⟨[some ⟨true, 0, 0, 10, 60⟩],
              [some ⟨true, 1, 0, 10, 50⟩, some ⟨true, 1, 0, 10, 40⟩], 1, 2⟩] 0 with
            buy_orders := (bookAt [⟨[some ⟨true, 0, 0, 10, 60⟩],
              [some ⟨true, 1, 0, 10, 50⟩, some ⟨true, 1, 0, 10, 40⟩], 1, 2⟩] 0).buy_orders.set jm
              (some { o with active := false }),
            sell_orders := (bookAt [⟨[some ⟨true, 0, 0, 10, 60⟩],
              [some ⟨true, 1, 0, 10, 50⟩, some ⟨true, 1, 0, 10, 40⟩], 1, 2⟩] 0).sell_orders.set si
              (some { so with active := false }) } :=
  matchOrder_match_anatomy
    [⟨[some ⟨true, 0, 0, 10, 60⟩], [some ⟨true, 1, 0, 10, 50⟩, some ⟨true, 1, 0, 10, 40⟩], 1, 2⟩]
    0 ⟨0, 60, 40, 10⟩
    [⟨[some ⟨false, 0, 0, 10, 60⟩], [some ⟨true, 1, 0, 10, 50⟩, some ⟨false, 1, 0, 10, 40⟩], 1, 2⟩]
    (by decide)

/-! ## C9: two concurrent insertions can overwrite each other

`addOrder`'s insertion (lines 43–47) is the statement sequence
`index = book.buy_count`, `book.buy_orders[index] = Order(...)`,
`book.buy_count += 1` — three separately interleavable steps, embedded
above as `readBuyIndex`, `writeBuySlot`, `incBuyCount` (the buy branch of
`addOrder` is literally `incBuyCount (writeBuySlot book (readBuyIndex book) o)`).
Python threads may interleave between these statements; the source's only
protection is the comment on line 46 (`Rely on the GIL to "atomically"
update the counter`), which does not make the three-statement sequence
atomic. -/

/-- C9 fails on the code: in the interleaving where threads T1 and T2 both
execute line 43 (`index = book.buy_count`) on the empty book before either
stores, both read index 0; T1 stores its order and increments, then T2
stores its order at the SAME index 0 and increments.  The final book has
`buy_count = 2` but slot 1 is still empty and T1's order (price 50) has
been overwritten by T2's (price 60) — not the two distinct fully-populated
slots the claim requires. -/
theorem concurrent_addOrder_lost_update :
    incBuyCount
        (writeBuySlot
          (incBuyCount
            (writeBuySlot OrderBook.init (readBuyIndex OrderBook.init)
              ⟨true, 0, 5, 10, 50⟩))
          (readBuyIndex OrderBook.init)
          ⟨true, 0, 5, 10, 60⟩) =
      { buy_orders :=
          (List.replicate MAX_ORDERS_PER_SIDE none).set 0 (some ⟨true, 0, 5, 10, 60⟩)
        sell_orders := List.replicate MAX_ORDERS_PER_SIDE none
        buy_count := 2
        sell_count := 0 } ∧
    slotAt (incBuyCount
        (writeBuySlot
          (incBuyCount
            (writeBuySlot OrderBook.init (readBuyIndex OrderBook.init)
              ⟨true, 0, 5, 10, 50⟩))
          (readBuyIndex OrderBook.init)
          ⟨true, 0, 5, 10, 60⟩)).buy_orders 1 = none ∧
    slotAt (incBuyCount
        (writeBuySlot
          (incBuyCount
            (writeBuySlot OrderBook.init (readBuyIndex OrderBook.init)
              ⟨true, 0, 5, 10, 50⟩))
          (readBuyIndex OrderBook.init)
          ⟨true, 0, 5, 10, 60⟩)).buy_orders 0 = some ⟨true, 0, 5, 10, 60⟩ := by
  refine ⟨?_, by decide, by decide⟩
  simp [incBuyCount, writeBuySlot, readBuyIndex, OrderBook.init, List.set_set]

/-! ## Slot-list evolution: `matchOrder` only flips `active` flags -/

/-- Dropping the `active` flag of an already-inactive order changes
nothing. -/
theorem inactive_update_self (u : Order) (h : u.active = false) :
    ({ u with active := false } : Order) = u := by
  cases u
  simp_all

/-- How a slot list may change across a buy scan: same length, and each
slot is untouched or has its order's `active` flag dropped with every other
field intact. -/
def slotsEvolve (l l' : List (Option Order)) : Prop :=
  l'.length = l.length ∧
  ∀ k, slotAt l' k = slotAt l k ∨
    ∃ u, slotAt l k = some u ∧ slotAt l' k = some { u with active := false }

theorem slotsEvolve_refl (l : List (Option Order)) : slotsEvolve l l :=
  ⟨rfl, fun _ => Or.inl rfl⟩

theorem slotsEvolve_trans (a b c : List (Option Order))
    (h1 : slotsEvolve a b) (h2 : slotsEvolve b c) : slotsEvolve a c := by
  refine ⟨h2.1.trans h1.1, fun k => ?_⟩
  rcases h2.2 k with hc | ⟨u, hu1, hu2⟩
  · rcases h1.2 k with hb | ⟨v, hv1, hv2⟩
    · exact Or.inl (hc.trans hb)
    · exact Or.inr ⟨v, hv1, hc.trans hv2⟩
  · rcases h1.2 k with hb | ⟨v, hv1, hv2⟩
    · exact Or.inr ⟨u, hb ▸ hu1, hu2⟩
    · have huv : { v with active := false } = u := by
        rw [hv2] at hu1
        injection hu1
      refine Or.inr ⟨v, hv1, ?_⟩
      rw [hu2, ← huv]

/-- Deactivating a populated slot is a slot-list evolution. -/
theorem slotsEvolve_set_inactive (l : List (Option Order)) (j : ℕ) (u : Order)
    (h : slotAt l j = some u) :
    slotsEvolve l (l.set j (some { u with active := false })) := by
  have hl : j < l.length := by
    by_contra hge
    rw [slotAt_of_length_le _ _ (le_of_not_lt hge)] at h
    exact absurd h (by simp)
  refine ⟨List.length_set l j _, fun k => ?_⟩
  by_cases hk : j = k
  · subst hk
    exact Or.inr ⟨u, h, slotAt_set_self _ _ _ hl⟩
  · exact Or.inl (slotAt_set_ne _ _ _ _ hk)

/-- The buy scan can only deactivate orders: both slot lists evolve in the
sense of `slotsEvolve`, whatever the scan's outcome. -/
theorem buyScanFrom_evolve (ticker : ℤ) (sp : ℚ) (si : ℕ) (n : ℕ) :
    ∀ (j : ℕ) (buys sells : List (Option Order))
      (res : Option (ℕ × MatchRecord)) (buys' sells' : List (Option Order)),
      buyScanFrom ticker sp si n j buys sells = (res, buys', sells') →
      slotsEvolve buys buys' ∧ slotsEvolve sells sells' := by
  induction n with
  | zero =>
    intro j buys sells res buys' sells' h
    simp only [buyScanFrom, Prod.mk.injEq] at h
    obtain ⟨-, hb, hs⟩ := h
    exact ⟨hb ▸ slotsEvolve_refl buys, hs ▸ slotsEvolve_refl sells⟩
  | succ n ih =>
    intro j buys sells res buys' sells' h
    cases hsb : slotAt buys j with
    | none =>
      rw [buyScanFrom_succ_empty _ _ _ _ _ _ _ hsb] at h
      exact ih (j + 1) buys sells res buys' sells' h
    | some o0 =>
      cases hao0 : o0.active with
      | false =>
        rw [buyScanFrom_succ_inactive _ _ _ _ _ _ _ _ hsb hao0] at h
        exact ih (j + 1) buys sells res buys' sells' h
      | true =>
        by_cases hp : sp ≤ o0.price
        · cases hso : slotAt sells si with
          | none =>
            rw [buyScanFrom_succ_sellgone_empty _ _ _ _ _ _ _ _ hsb hao0 hp hso] at h
            obtain ⟨hb, hs⟩ := ih (j + 1) _ sells res buys' sells' h
            exact ⟨slotsEvolve_trans _ _ _ (slotsEvolve_set_inactive _ _ _ hsb) hb, hs⟩
          | some so =>
            cases haso : so.active with
            | false =>
              rw [buyScanFrom_succ_sellgone_inactive _ _ _ _ _ _ _ _ _ hsb hao0 hp hso haso] at h
              obtain ⟨hb, hs⟩ := ih (j + 1) _ sells res buys' sells' h
              exact ⟨slotsEvolve_trans _ _ _ (slotsEvolve_set_inactive _ _ _ hsb) hb, hs⟩
            | true =>
              rw [buyScanFrom_succ_hit _ _ _ _ _ _ _ _ _ hsb hao0 hp hso haso] at h
              simp only [Prod.mk.injEq] at h
              obtain ⟨-, hb, hs⟩ := h
              exact ⟨hb ▸ slotsEvolve_set_inactive _ _ _ hsb,
                     hs ▸ slotsEvolve_set_inactive _ _ _ hso⟩
        · rw [buyScanFrom_succ_lowprice _ _ _ _ _ _ _ _ hsb hao0 hp] at h
          exact ih (j + 1) buys sells res buys' sells' h

/-! ## Order-book invariants and evolution across operations -/

/-- Spec §3's per-side invariant: the slot list has the fixed capacity,
`0 ≤ count ≤ capacity` (the lower bound is inherent in `ℕ`), every slot
below `count` is populated, and every slot at or above `count` is
unpopulated. -/
def sideWF (orders : List (Option Order)) (count : ℕ) : Prop :=
  orders.length = MAX_ORDERS_PER_SIDE ∧
  count ≤ MAX_ORDERS_PER_SIDE ∧
  (∀ i, i < count → ∃ o, slotAt orders i = some o) ∧
  (∀ i, count ≤ i → slotAt orders i = none)

/-- Both sides of a book are well formed. -/
def bookWF (b : OrderBook) : Prop :=
  sideWF b.buy_orders b.buy_count ∧ sideWF b.sell_orders b.sell_count

/-- The registry holds `MAX_TICKERS` well-formed books. -/
def regWF (books : Registry) : Prop :=
  books.length = MAX_TICKERS ∧ ∀ t, t < MAX_TICKERS → bookWF (bookAt books t)

/-- Spec §3's evolution contract for one side: the count never decreases,
a populated slot stays populated with every field except `active`
unchanged, and an inactive order is never touched again at all. -/
def sideEvolve (orders : List (Option Order)) (count : ℕ)
    (orders' : List (Option Order)) (count' : ℕ) : Prop :=
  count ≤ count' ∧
  (∀ i o, slotAt orders i = some o → ∃ o', slotAt orders' i = some o' ∧
    o'.order_type = o.order_type ∧ o'.ticker = o.ticker ∧
    o'.quantity = o.quantity ∧ o'.price = o.price) ∧
  (∀ i o, slotAt orders i = some o → o.active = false → slotAt orders' i = some o)

/-- Both sides of a book evolve legally. -/
def bookEvolve (b b' : OrderBook) : Prop :=
  sideEvolve b.buy_orders b.buy_count b'.buy_orders b'.buy_count ∧
  sideEvolve b.sell_orders b.sell_count b'.sell_orders b'.sell_count

/-- The registry evolves legally: same length, every book evolves. -/
def regEvolve (books books' : Registry) : Prop :=
  books'.length = books.length ∧ ∀ t, bookEvolve (bookAt books t) (bookAt books' t)

theorem sideEvolve_refl (orders : List (Option Order)) (count : ℕ) :
    sideEvolve orders count orders count :=
  ⟨le_refl _, fun _ o h => ⟨o, h, rfl, rfl, rfl, rfl⟩, fun _ _ h _ => h⟩

theorem sideEvolve_trans {o1 o2 o3 : List (Option Order)} {c1 c2 c3 : ℕ}
    (h1 : sideEvolve o1 c1 o2 c2) (h2 : sideEvolve o2 c2 o3 c3) :
    sideEvolve o1 c1 o3 c3 := by
  obtain ⟨hc1, hf1, hi1⟩ := h1
  obtain ⟨hc2, hf2, hi2⟩ := h2
  refine ⟨le_trans hc1 hc2, ?_, ?_⟩
  · intro i o h
    obtain ⟨o', h', e1, e2, e3, e4⟩ := hf1 i o h
    obtain ⟨o'', h'', f1, f2, f3, f4⟩ := hf2 i o' h'
    exact ⟨o'', h'', f1.trans e1, f2.trans e2, f3.trans e3, f4.trans e4⟩
  · intro i o h ha
    exact hi2 i o (hi1 i o h ha) ha

theorem regEvolve_refl (books : Registry) : regEvolve books books :=
  ⟨rfl, fun _ => ⟨sideEvolve_refl _ _, sideEvolve_refl _ _⟩⟩

theorem regEvolve_trans {b1 b2 b3 : Registry}
    (h1 : regEvolve b1 b2) (h2 : regEvolve b2 b3) : regEvolve b1 b3 := by
  refine ⟨h2.1.trans h1.1, fun t => ?_⟩
  obtain ⟨hb1, hs1⟩ := h1.2 t
  obtain ⟨hb2, hs2⟩ := h2.2 t
  exact ⟨sideEvolve_trans hb1 hb2, sideEvolve_trans hs1 hs2⟩

/-- A `slotsEvolve` change (what a buy scan does) together with unpopulated
slots below the unchanged count yields a legal side evolution. -/
theorem sideEvolve_of_slotsEvolve (orders orders' : List (Option Order)) (count : ℕ)
    (h : slotsEvolve orders orders') : sideEvolve orders count orders' count := by
  refine ⟨le_refl _, ?_, ?_⟩
  · intro i o hs
    rcases h.2 i with hu | ⟨u, hu1, hu2⟩
    · exact ⟨o, hu.trans hs, rfl, rfl, rfl, rfl⟩
    · have huo : u = o := by
        rw [hs] at hu1
        exact (Option.some.inj hu1).symm
      subst huo
      exact ⟨{ u with active := false }, hu2, rfl, rfl, rfl, rfl⟩
  · intro i o hs ha
    rcases h.2 i with hu | ⟨u, hu1, hu2⟩
    · exact hu.trans hs
    · have huo : u = o := by
        rw [hs] at hu1
        exact (Option.some.inj hu1).symm
      subst huo
      rw [hu2, inactive_update_self u ha]

/-- A `slotsEvolve` change preserves well-formedness of a side with
unchanged count. -/
theorem sideWF_of_slotsEvolve (orders orders' : List (Option Order)) (count : ℕ)
    (h : slotsEvolve orders orders') (hwf : sideWF orders count) :
    sideWF orders' count := by
  obtain ⟨hlen, hcnt, hpop, hemp⟩ := hwf
  refine ⟨h.1.trans hlen, hcnt, ?_, ?_⟩
  · intro i hi
    obtain ⟨o, ho⟩ := hpop i hi
    rcases h.2 i with hu | ⟨u, _, hu2⟩
    · exact ⟨o, hu.trans ho⟩
    · exact ⟨_, hu2⟩
  · intro i hi
    rcases h.2 i with hu | ⟨u, hu1, _⟩
    · exact hu.trans (hemp i hi)
    · rw [hemp i hi] at hu1
      exact absurd hu1 (by simp)

/-- Inserting at the count (what a successful `addOrder` does) preserves the
side invariant with the count advanced by one. -/
theorem sideWF_insert (orders : List (Option Order)) (count : ℕ) (o : Order)
    (hwf : sideWF orders count) (hc : count < MAX_ORDERS_PER_SIDE) :
    sideWF (orders.set count (some o)) (count + 1) := by
  obtain ⟨hlen, -, hpop, hemp⟩ := hwf
  have hclen : count < orders.length := by rw [hlen]; exact hc
  refine ⟨by rw [List.length_set, hlen], by omega, ?_, ?_⟩
  · intro i hi
    by_cases hik : i = count
    · subst hik
      exact ⟨o, slotAt_set_self _ _ _ hclen⟩
    · rw [slotAt_set_ne _ _ _ _ (fun h => hik h.symm)]
      exact hpop i (by omega)
  · intro i hi
    rw [slotAt_set_ne _ _ _ _ (by omega)]
    exact hemp i (by omega)

/-- Inserting at the count is a legal side evolution: it touches only the
previously-unpopulated slot at the old count. -/
theorem sideEvolve_insert (orders : List (Option Order)) (count : ℕ) (o : Order)
    (hwf : sideWF orders count) :
    sideEvolve orders count (orders.set count (some o)) (count + 1) := by
  obtain ⟨-, -, -, hemp⟩ := hwf
  have hne : ∀ i (u : Order), slotAt orders i = some u → count ≠ i := by
    intro i u hu he
    rw [← he] at hu
    rw [hemp count (le_refl count)] at hu
    exact absurd hu (by simp)
  refine ⟨by omega, ?_, ?_⟩
  · intro i u hu
    rw [slotAt_set_ne _ _ _ _ (hne i u hu)]
    exact ⟨u, hu, rfl, rfl, rfl, rfl⟩
  · intro i u hu _
    rw [slotAt_set_ne _ _ _ _ (hne i u hu)]
    exact hu

/-- `addOrder` preserves the registry invariant and is a legal evolution
(count never decreases, populated slots immutable but for `active`). -/
theorem addOrder_preserves (books : Registry) (order_type ticker quantity : ℤ)
    (price : ℚ) (hwf : regWF books) :
    regWF (addOrder books order_type ticker quantity price).2 ∧
    regEvolve books (addOrder books order_type ticker quantity price).2 := by
  have hM : MAX_TICKERS = 1024 := rfl
  by_cases hv : ticker < 0 ∨ (MAX_TICKERS : ℤ) ≤ ticker
  · simp only [addOrder, if_pos hv]
    exact ⟨hwf, regEvolve_refl books⟩
  · obtain ⟨hnl, hnr⟩ := not_or.mp hv
    have ht1 : ticker < (MAX_TICKERS : ℤ) := lt_of_not_le hnr
    have htn : ticker.toNat < MAX_TICKERS := by
      rw [hM] at ht1 ⊢
      omega
    have htlen : ticker.toNat < books.length := by rw [hwf.1]; exact htn
    obtain ⟨hbuyWF, hsellWF⟩ := hwf.2 ticker.toNat htn
    by_cases h0 : order_type = 0
    · by_cases hc : readBuyIndex (bookAt books ticker.toNat) < MAX_ORDERS_PER_SIDE
      · have hres : (addOrder books order_type ticker quantity price).2 =
            books.set ticker.toNat
              (incBuyCount (writeBuySlot (bookAt books ticker.toNat)
                (readBuyIndex (bookAt books ticker.toNat))
                ⟨true, order_type, ticker, quantity, price⟩)) := by
          simp only [addOrder, if_neg hv, if_pos h0, if_pos hc]
        rw [hres]
        constructor
        · refine ⟨by rw [List.length_set, hwf.1], fun u hu => ?_⟩
          by_cases hut : u = ticker.toNat
          · subst hut
            rw [bookAt_set_self _ _ _ htlen]
            exact ⟨sideWF_insert _ _ _ hbuyWF hc, hsellWF⟩
          · rw [bookAt_set_ne _ _ _ _ (fun h => hut h.symm)]
            exact hwf.2 u hu
        · refine ⟨by rw [List.length_set], fun u => ?_⟩
          by_cases hut : u = ticker.toNat
          · subst hut
            rw [bookAt_set_self _ _ _ htlen]
            exact ⟨sideEvolve_insert _ _ _ hbuyWF, sideEvolve_refl _ _⟩
          · rw [bookAt_set_ne _ _ _ _ (fun h => hut h.symm)]
            exact ⟨sideEvolve_refl _ _, sideEvolve_refl _ _⟩
      · have hres : (addOrder books order_type ticker quantity price).2 = books := by
          simp only [addOrder, if_neg hv, if_pos h0, if_neg hc]
        rw [hres]
        exact ⟨hwf, regEvolve_refl books⟩
    · by_cases hc : readSellIndex (bookAt books ticker.toNat) < MAX_ORDERS_PER_SIDE
      · have hres : (addOrder books order_type ticker quantity price).2 =
            books.set ticker.toNat
              (incSellCount (writeSellSlot (bookAt books ticker.toNat)
                (readSellIndex (bookAt books ticker.toNat))
                ⟨true, order_type, ticker, quantity, price⟩)) := by
          simp only [addOrder, if_neg hv, if_neg h0, if_pos hc]
        rw [hres]
        constructor
        · refine ⟨by rw [List.length_set, hwf.1], fun u hu => ?_⟩
          by_cases hut : u = ticker.toNat
          · subst hut
            rw [bookAt_set_self _ _ _ htlen]
            exact ⟨hbuyWF, sideWF_insert _ _ _ hsellWF hc⟩
          · rw [bookAt_set_ne _ _ _ _ (fun h => hut h.symm)]
            exact hwf.2 u hu
        · refine ⟨by rw [List.length_set], fun u => ?_⟩
          by_cases hut : u = ticker.toNat
          · subst hut
            rw [bookAt_set_self _ _ _ htlen]
            exact ⟨sideEvolve_refl _ _, sideEvolve_insert _ _ _ hsellWF⟩
          · rw [bookAt_set_ne _ _ _ _ (fun h => hut h.symm)]
            exact ⟨sideEvolve_refl _ _, sideEvolve_refl _ _⟩
      · have hres : (addOrder books order_type ticker quantity price).2 = books := by
          simp only [addOrder, if_neg hv, if_neg h0, if_neg hc]
        rw [hres]
        exact ⟨hwf, regEvolve_refl books⟩

/-- The registry after `matchOrder` is either untouched, or (for a valid
ticker) the ticker's book with both slot lists evolved by the buy scan and
both counts unchanged. -/
theorem matchOrder_state_cases (books : Registry) (ticker : ℤ) :
    (matchOrder books ticker).2 = books ∨
    (ticker.toNat < MAX_TICKERS ∧
     ∃ buys' sells',
       slotsEvolve (bookAt books ticker.toNat).buy_orders buys' ∧
       slotsEvolve (bookAt books ticker.toNat).sell_orders sells' ∧
       (matchOrder books ticker).2 = books.set ticker.toNat
         { bookAt books ticker.toNat with
           buy_orders := buys', sell_orders := sells' }) := by
  have hM : MAX_TICKERS = 1024 := rfl
  by_cases hv : ticker < 0 ∨ (MAX_TICKERS : ℤ) ≤ ticker
  · left
    simp [matchOrder, matchOrderAux, if_pos hv]
  · have htn : ticker.toNat < MAX_TICKERS := by
      obtain ⟨hnl, hnr⟩ := not_or.mp hv
      have ht1 : ticker < (MAX_TICKERS : ℤ) := lt_of_not_le hnr
      rw [hM] at ht1 ⊢
      omega
    cases hf : findLowestSell (bookAt books ticker.toNat).sell_orders
        (bookAt books ticker.toNat).sell_count with
    | none =>
      left
      simp [matchOrder, matchOrderAux, if_neg hv, hf]
    | some pk =>
      obtain ⟨sp, si⟩ := pk
      rcases hscan : buyScanFrom ticker sp si (bookAt books ticker.toNat).buy_count 0
          (bookAt books ticker.toNat).buy_orders (bookAt books ticker.toNat).sell_orders with
        ⟨res, buys', sells'⟩
      obtain ⟨hb, hs⟩ := buyScanFrom_evolve ticker sp si _ 0 _ _ res buys' sells' hscan
      right
      refine ⟨htn, buys', sells', hb, hs, ?_⟩
      cases res with
      | none =>
        simp [matchOrder, matchOrderAux, if_neg hv, hf, hscan]
      | some jr =>
        obtain ⟨jm, r⟩ := jr
        simp [matchOrder, matchOrderAux, if_neg hv, hf, hscan]

/-- `matchOrder` preserves the registry invariant and is a legal evolution:
it only drops `active` flags, never touches counts or other fields. -/
theorem matchOrder_preserves (books : Registry) (ticker : ℤ) (hwf : regWF books) :
    regWF (matchOrder books ticker).2 ∧
    regEvolve books (matchOrder books ticker).2 := by
  rcases matchOrder_state_cases books ticker with h | ⟨htn, buys', sells', hb, hs, h⟩
  · rw [h]
    exact ⟨hwf, regEvolve_refl books⟩
  · have htlen : ticker.toNat < books.length := by rw [hwf.1]; exact htn
    obtain ⟨hbuyWF, hsellWF⟩ := hwf.2 ticker.toNat htn
    rw [h]
    constructor
    · refine ⟨by rw [List.length_set, hwf.1], fun u hu => ?_⟩
      by_cases hut : u = ticker.toNat
      · subst hut
        rw [bookAt_set_self _ _ _ htlen]
        exact ⟨sideWF_of_slotsEvolve _ _ _ hb hbuyWF,
               sideWF_of_slotsEvolve _ _ _ hs hsellWF⟩
      · rw [bookAt_set_ne _ _ _ _ (fun hh => hut hh.symm)]
        exact hwf.2 u hu
    · refine ⟨by rw [List.length_set], fun u => ?_⟩
      by_cases hut : u = ticker.toNat
      · subst hut
        rw [bookAt_set_self _ _ _ htlen]
        exact ⟨sideEvolve_of_slotsEvolve _ _ _ hb, sideEvolve_of_slotsEvolve _ _ _ hs⟩
      · rw [bookAt_set_ne _ _ _ _ (fun hh => hut hh.symm)]
        exact ⟨sideEvolve_refl _ _, sideEvolve_refl _ _⟩

/-- One call — either operation — preserves the invariant and evolves the
registry legally. -/
theorem applyOp_preserves (books : Registry) (op : Op) (hwf : regWF books) :
    regWF (applyOp books op) ∧ regEvolve books (applyOp books op) := by
  cases op with
  | add oty t q p => exact addOrder_preserves books oty t q p hwf
  | tryMatch t => exact matchOrder_preserves books t hwf

/-- Any sequence of calls preserves the invariant and evolves the registry
legally. -/
theorem runOps_preserves (ops : List Op) :
    ∀ books : Registry, regWF books →
      regWF (runOps books ops) ∧ regEvolve books (runOps books ops) := by
  induction ops with
  | nil => exact fun books hwf => ⟨hwf, regEvolve_refl books⟩
  | cons op ops ih =>
    intro books hwf
    obtain ⟨hwf1, hev1⟩ := applyOp_preserves books op hwf
    obtain ⟨hwf2, hev2⟩ := ih (applyOp books op) hwf1
    exact ⟨hwf2, regEvolve_trans hev1 hev2⟩

/-- A replicated-`none` slot list is empty everywhere. -/
theorem slotAt_replicate_none (n i : ℕ) : slotAt (List.replicate n none) i = none := by
  rcases Nat.lt_or_ge i n with h | h
  · simp [slotAt, List.getD_eq_getElem?_getD, List.getElem?_replicate, h]
  · exact slotAt_of_length_le _ _ (by simpa using h)

/-- An empty side is well formed. -/
theorem sideWF_empty : sideWF (List.replicate MAX_ORDERS_PER_SIDE none) 0 :=
  ⟨List.length_replicate _ _, Nat.zero_le _,
   fun i hi => absurd hi (by omega),
   fun i _ => slotAt_replicate_none _ _⟩

/-- A fresh book is well formed. -/
theorem bookWF_init : bookWF OrderBook.init :=
  ⟨sideWF_empty, sideWF_empty⟩

/-- Every in-range book of the fresh registry is the fresh book. -/
theorem bookAt_init (t : ℕ) (ht : t < MAX_TICKERS) :
    bookAt initBooks t = OrderBook.init := by
  simp [bookAt, initBooks, List.getD_eq_getElem?_getD, List.getElem?_replicate, ht]

/-- The fresh registry is well formed. -/
theorem regWF_init : regWF initBooks := by
  refine ⟨by simp [initBooks], fun t ht => ?_⟩
  rw [bookAt_init t ht]
  exact bookWF_init

/-! ## C8: the per-side order-book invariant is preserved by every run -/

/-- C8: every sequence of `addOrder`/`matchOrder` calls from a well-formed
registry preserves the per-side invariant (`regWF`: fixed capacity,
`0 ≤ count ≤ MAX_ORDERS_PER_SIDE` — the lower bound inherent in `ℕ` —
populated exactly below `count`) and evolves the registry legally
(`regEvolve`: no count ever decreases, every populated slot keeps its
order with all fields other than `active` unchanged, and inactive orders
are never modified at all). -/
theorem order_book_invariant_all_runs (books : Registry) (ops : List Op)
    (hwf : regWF books) :
    regWF (runOps books ops) ∧ regEvolve books (runOps books ops) :=
  runOps_preserves ops books hwf

/-- Witness for `order_book_invariant_all_runs`: the fresh registry and a
two-call run. -/
theorem order_book_invariant_all_runs_witness :
    regWF (runOps initBooks [Op.add 0 5 10 50, Op.tryMatch 5]) ∧
    regEvolve initBooks (runOps initBooks [Op.add 0 5 10 50, Op.tryMatch 5]) :=
  order_book_invariant_all_runs initBooks [Op.add 0 5 10 50, Op.tryMatch 5] regWF_init

/-- Inversion of the settled-pair instrumentation: if `matchOrderAux`
reports a settled pair `(jb, js)`, the sell scan selected index `js` and
the buy scan settled at index `jb`. -/
theorem matchOrderAux_idx_inv (books : Registry) (ticker : ℤ) (jb js : ℕ)
    (h : (matchOrderAux books ticker).2.2 = some (jb, js)) :
    ∃ sp r buys' sells',
      findLowestSell (bookAt books ticker.toNat).sell_orders
        (bookAt books ticker.toNat).sell_count = some (sp, js) ∧
      buyScanFrom ticker sp js (bookAt books ticker.toNat).buy_count 0
        (bookAt books ticker.toNat).buy_orders (bookAt books ticker.toNat).sell_orders =
        (some (jb, r), buys', sells') := by
  by_cases hv : ticker < 0 ∨ (MAX_TICKERS : ℤ) ≤ ticker
  · rw [matchOrderAux, if_pos hv] at h
    exact absurd h (by simp)
  · rw [matchOrderAux, if_neg hv] at h
    cases hf : findLowestSell (bookAt books ticker.toNat).sell_orders
        (bookAt books ticker.toNat).sell_count with
    | none =>
      simp only [hf] at h
      exact absurd h (by simp)
    | some pk =>
      obtain ⟨sp, si⟩ := pk
      simp only [hf] at h
      rcases hscan : buyScanFrom ticker sp si (bookAt books ticker.toNat).buy_count 0
          (bookAt books ticker.toNat).buy_orders (bookAt books ticker.toNat).sell_orders with
        ⟨res, buys', sells'⟩
      rw [hscan] at h
      cases res with
      | none => simp at h
      | some jr =>
        obtain ⟨jm, r⟩ := jr
        simp only [Option.some.injEq, Prod.mk.injEq] at h
        obtain ⟨hjm, hsi⟩ := h
        subst hjm hsi
        exact ⟨sp, r, buys', sells', rfl, hscan⟩

/-! ## C6: a matched order is never selected again -/

/-- C6: once an order's `active` flag is `false`, then after ANY further
sequence of `addOrder`/`matchOrder` calls the slot still holds that very
order with `active` still `false` (the flag never returns to `true`), and
no `matchOrder` call on its ticker ever selects that slot again — not as
the settled buy (first part) and not as the selected sell (second part),
because both scans only select orders whose `active` flag is `true`. -/
theorem inactive_never_reselected (books : Registry) (t i : ℕ) (o : Order)
    (hwf : regWF books) (_ht : t < MAX_TICKERS) :
    (slotAt (bookAt books t).buy_orders i = some o → o.active = false →
      ∀ ops : List Op,
        slotAt (bookAt (runOps books ops) t).buy_orders i = some o ∧
        ∀ jb js, (matchOrderAux (runOps books ops) (t : ℤ)).2.2 = some (jb, js) →
          jb ≠ i) ∧
    (slotAt (bookAt books t).sell_orders i = some o → o.active = false →
      ∀ ops : List Op,
        slotAt (bookAt (runOps books ops) t).sell_orders i = some o ∧
        ∀ jb js, (matchOrderAux (runOps books ops) (t : ℤ)).2.2 = some (jb, js) →
          js ≠ i) := by
  have hcast : ((t : ℤ)).toNat = t := Int.toNat_natCast t
  constructor
  · intro hslot hina ops
    obtain ⟨hwf', hev⟩ := runOps_preserves ops books hwf
    have hslot' : slotAt (bookAt (runOps books ops) t).buy_orders i = some o :=
      (hev.2 t).1.2.2 i o hslot hina
    refine ⟨hslot', ?_⟩
    intro jb js hidx
    obtain ⟨sp, r, buys', sells', hf, hscan⟩ := matchOrderAux_idx_inv _ _ _ _ hidx
    rw [hcast] at hf hscan
    obtain ⟨-, ⟨so, hso, haso, -⟩, -, -⟩ := findLowestSell_spec _ _ _ _ hf
    obtain ⟨-, -, o'', ho1, ho2, -⟩ :=
      buyScanFrom_match_spec (t : ℤ) sp js so _ 0 _ _ jb r buys' sells' hso haso hscan
    intro he
    rw [he, hslot'] at ho1
    have : o = o'' := by injection ho1
    rw [← this] at ho2
    rw [hina] at ho2
    exact absurd ho2 (by simp)
  · intro hslot hina ops
    obtain ⟨hwf', hev⟩ := runOps_preserves ops books hwf
    have hslot' : slotAt (bookAt (runOps books ops) t).sell_orders i = some o :=
      (hev.2 t).2.2.2 i o hslot hina
    refine ⟨hslot', ?_⟩
    intro jb js hidx
    obtain ⟨sp, r, buys', sells', hf, hscan⟩ := matchOrderAux_idx_inv _ _ _ _ hidx
    rw [hcast] at hf hscan
    obtain ⟨-, ⟨so, hso, haso, -⟩, -, -⟩ := findLowestSell_spec _ _ _ _ hf
    intro he
    rw [he, hslot'] at hso
    have : o = so := by injection hso
    rw [← this] at haso
    rw [hina] at haso
    exact absurd haso (by simp)

/-- Replacing one in-range book by a well-formed book keeps the registry
well formed. -/
theorem regWF_set (books : Registry) (t : ℕ) (b : OrderBook)
    (hwf : regWF books) (ht : t < MAX_TICKERS) (hb : bookWF b) :
    regWF (books.set t b) := by
  refine ⟨by rw [List.length_set, hwf.1], fun u hu => ?_⟩
  by_cases hut : u = t
  · subst hut
    rw [bookAt_set_self _ _ _ (by rw [hwf.1]; exact ht)]
    exact hb
  · rw [bookAt_set_ne _ _ _ _ (fun h => hut h.symm)]
    exact hwf.2 u hu

/-- A side holding one populated slot at index 0 with count 1 is well
formed. -/
theorem sideWF_one_inactive_buy :
    sideWF ((List.replicate MAX_ORDERS_PER_SIDE none).set 0
      (some ⟨false, 0, 5, 10, 60⟩)) 1 := by
  refine ⟨by simp, by norm_num [MAX_ORDERS_PER_SIDE], ?_, ?_⟩
  · intro i hi
    have hi0 : i = 0 := by omega
    subst hi0
    exact ⟨⟨false, 0, 5, 10, 60⟩,
      slotAt_set_self _ _ _ (by norm_num [MAX_ORDERS_PER_SIDE])⟩
  · intro i hi
    rw [slotAt_set_ne _ _ _ _ (by omega)]
    exact slotAt_replicate_none _ _

/-- The concrete book used by the `inactive_never_reselected` witness:
one already-matched buy order in slot 0, empty sell side. -/
theorem bookWF_one_inactive_buy :
    bookWF ⟨(List.replicate MAX_ORDERS_PER_SIDE none).set 0 (some ⟨false, 0, 5, 10, 60⟩),
            List.replicate MAX_ORDERS_PER_SIDE none, 1, 0⟩ :=
  ⟨sideWF_one_inactive_buy, sideWF_empty⟩

set_option maxRecDepth 8192 in
/-- Witness for `inactive_never_reselected`: a registry whose book 5 holds a
single already-inactive buy order in slot 0; after a further `matchOrder(5)`
call the slot is unchanged and no settled pair ever names buy slot 0. -/
theorem inactive_never_reselected_witness :
    slotAt (bookAt (runOps
        (initBooks.set 5
          ⟨(List.replicate MAX_ORDERS_PER_SIDE none).set 0 (some ⟨false, 0, 5, 10, 60⟩),
           List.replicate MAX_ORDERS_PER_SIDE none, 1, 0⟩)
        [Op.tryMatch 5]) 5).buy_orders 0 = some ⟨false, 0, 5, 10, 60⟩ ∧
    ∀ jb js,
      (matchOrderAux (runOps
        (initBooks.set 5
          ⟨(List.replicate MAX_ORDERS_PER_SIDE none).set 0 (some ⟨false, 0, 5, 10, 60⟩),
           List.replicate MAX_ORDERS_PER_SIDE none, 1, 0⟩)
        [Op.tryMatch 5]) ((5 : ℕ) : ℤ)).2.2 = some (jb, js) → jb ≠ 0 :=
  (inactive_never_reselected
    (initBooks.set 5
      ⟨(List.replicate MAX_ORDERS_PER_SIDE none).set 0 (some ⟨false, 0, 5, 10, 60⟩),
       List.replicate MAX_ORDERS_PER_SIDE none, 1, 0⟩)
    5 0 ⟨false, 0, 5, 10, 60⟩
    (regWF_set _ _ _ regWF_init (by decide) bookWF_one_inactive_buy)
    (by decide)).1
    (by decide) rfl [Op.tryMatch 5]
